import Mathlib

/-!
# Verification of the astx Python-transpiler core

Shallow embedding of the fragment of `astx` exercised here:

* `src/astx/blocks.py` — the `Block` container (append, single-pass
  iteration with an internal `position` cursor);
* `src/astx/transpilers/python.py` — `ASTxPythonTranspiler`: the
  dispatch-based renderer with its mutable `indent_level` counter.

The transpiler object carries one piece of mutable state, the
`indent_level : Nat` counter.  Rendering is modelled as a state-passing
function `visit : AST → Nat → VRes`, where a `VRes` carries the resulting
state in the success and in the error case alike (a Python exception
leaves the mutated transpiler object behind, so errors must carry the
state as well).

Dispatch note: in the source, every `visit` overload is registered with
`@dispatch` except the `IfExpr` one, which lacks the decorator; the class
attribute `visit` is the dispatcher assembled from the *registered*
overloads only, so an `IfExpr` node falls through to the abstract
fallback, exactly like a kind with no rule at all (e.g. `VarDecl`).
The embedding reflects the registered dispatch table.
-/

namespace Astx

/-- Source location `(line, col)`, as stored on every node. -/
structure SourceLocation where
  line : Nat
  col : Nat
deriving DecidableEq, Repr

/-- Type descriptors: the bare classes (`astx.Int32`, `astx.Float32`, …)
used as parameter/return type annotations.  The transpiler has dedicated
`visit(Type[...])` rules for these, distinct from the literal rules. -/
inductive TypeRef where
  | Int32
  | Float16
  | Float32
  | Float64
  | Complex32
  | Complex64
deriving DecidableEq, Repr

/-- `astx.Argument`: a parameter name plus a type reference. -/
structure Argument where
  name : String
  type_ : TypeRef
deriving DecidableEq, Repr

/-- `astx.FunctionPrototype`: name, ordered arguments, optional return type. -/
structure FunctionPrototype where
  name : String
  args : List Argument
  return_type : Option TypeRef
deriving DecidableEq, Repr

/-- The node variants of the modelled fragment.  `Block`-valued fields
(`Function.body`, `IfStmt.then`/`else_`) are carried as the block's
ordered child list, mirroring the `astx.Block.nodes` attribute that the
renderer reads.  `VarDecl` (from `src/astx/variables.py`) has no `visit`
rule; `IfExpr` has an un-registered one (missing `@dispatch`). -/
inductive AST where
  | binaryOp (op_code : String) (lhs rhs : AST) (loc : SourceLocation := ⟨0, 0⟩)
  | unaryOp (op_code : String) (operand : AST) (loc : SourceLocation := ⟨0, 0⟩)
  | block (name : String) (nodes : List AST) (loc : SourceLocation := ⟨0, 0⟩)
  | function (prototype : FunctionPrototype) (body : List AST)
      (loc : SourceLocation := ⟨0, 0⟩)
  | functionReturn (value : Option AST) (loc : SourceLocation := ⟨0, 0⟩)
  | ifExpr (condition : AST) (then_ : AST) (else_ : Option AST)
      (loc : SourceLocation := ⟨0, 0⟩)
  | ifStmt (condition : AST) (then_ : List AST) (else_ : Option (List AST))
      (loc : SourceLocation := ⟨0, 0⟩)
  | literalBoolean (value : Bool) (loc : SourceLocation := ⟨0, 0⟩)
  | literalInt32 (value : Int) (loc : SourceLocation := ⟨0, 0⟩)
  | variable (name : String) (loc : SourceLocation := ⟨0, 0⟩)
  | variableAssignment (name : String) (value : AST)
      (loc : SourceLocation := ⟨0, 0⟩)
  | varDecl (var_names : List (String × AST)) (type_name : String)
      (body : List AST) (loc : SourceLocation := ⟨0, 0⟩)
deriving Repr

/-- The node's kind tag (the class name used for dispatch). -/
def AST.kind : AST → String
  | .binaryOp .. => "BinaryOp"
  | .unaryOp .. => "UnaryOp"
  | .block .. => "Block"
  | .function .. => "Function"
  | .functionReturn .. => "FunctionReturn"
  | .ifExpr .. => "IfExpr"
  | .ifStmt .. => "IfStmt"
  | .literalBoolean .. => "LiteralBoolean"
  | .literalInt32 .. => "LiteralInt32"
  | .variable .. => "Variable"
  | .variableAssignment .. => "VariableAssignment"
  | .varDecl .. => "VarDecl"

/-- The node's stored source location. -/
def AST.loc : AST → SourceLocation
  | .binaryOp _ _ _ l => l
  | .unaryOp _ _ l => l
  | .block _ _ l => l
  | .function _ _ l => l
  | .functionReturn _ l => l
  | .ifExpr _ _ _ l => l
  | .ifStmt _ _ _ l => l
  | .literalBoolean _ l => l
  | .literalInt32 _ l => l
  | .variable _ l => l
  | .variableAssignment _ _ l => l
  | .varDecl _ _ _ l => l

/-- Modelled from the spec: the failure condition raised by the abstract
`visit` fallback (`raise Exception(f"Not implemented yet ({expr}).")`).
The structured payload (kind tag and source location) follows the spec's
`UnsupportedConstruct` description, since the textual form of a node
(`astx.base.AST.__str__`) is not part of the sources under `src/`. -/
inductive RenderError where
  | unsupportedConstruct (kind : String) (loc : SourceLocation)
deriving DecidableEq, Repr

/-- Result of one `visit` call: rendered text or an error, together with
the transpiler's `indent_level` after the call (mutations survive a
raised exception). -/
inductive VRes where
  | ok (out : String) (lvl : Nat)
  | err (e : RenderError) (lvl : Nat)
deriving DecidableEq, Repr

/-- Result of rendering a list of block children. -/
inductive LRes where
  | ok (lines : List String) (lvl : Nat)
  | err (e : RenderError) (lvl : Nat)
deriving DecidableEq, Repr

/-- `self.indent_str * n` with `indent_str = "    "` (4 spaces):
the Python string-repetition operator. -/
def indentOf : Nat → String
  | 0 => ""
  | n + 1 => "    " ++ indentOf n

/-- `visit(Type[...])` rules: type descriptors render as annotations. -/
def visitType : TypeRef → String
  | .Int32 => "int"
  | .Float16 => "float"
  | .Float32 => "float"
  | .Float64 => "float"
  | .Complex32 => "Complex"
  | .Complex64 => "Complex"

/-- `visit(astx.Argument)`: `f"{node.name}: {type_}"`. -/
def visitArgument (a : Argument) : String :=
  a.name ++ ": " ++ visitType a.type_

/-- `visit(astx.Arguments)`: `", ".join(...)` over the arguments. -/
def visitArguments (args : List Argument) : String :=
  String.intercalate ", " (args.map visitArgument)

/-- The tail of `ASTxPythonTranspiler._generate_block` after the child
comprehension: `"\n".join(lines) if lines else indent_str * indent_level
+ "pass"`, followed by the `indent_level -= 1` decrement — which is
skipped when the comprehension raised, since there is no `try/finally`. -/
def blockAssemble : LRes → VRes
  | .ok lines lvl₁ =>
    if lines.isEmpty then .ok (indentOf lvl₁ ++ "pass") (lvl₁ - 1)
    else .ok (String.intercalate "\n" lines) (lvl₁ - 1)
  | .err e lvl₁ => .err e lvl₁

mutual

/-- `ASTxPythonTranspiler.visit`, as dispatched by the registered
overloads; `lvl` is the current `indent_level`.  `IfExpr` and `VarDecl`
fall through to the abstract fallback, which raises.  The
`blockAssemble (visitList ...)` compositions are `_generate_block`
(see `generateBlock` below), written out so that the recursion stays
structural. -/
def visit : AST → Nat → VRes
  | .binaryOp op lhs rhs _, lvl =>
    match visit lhs lvl with
    | .ok l lvl₁ =>
      match visit rhs lvl₁ with
      | .ok r lvl₂ => .ok ("(" ++ l ++ " " ++ op ++ " " ++ r ++ ")") lvl₂
      | .err e lvl₂ => .err e lvl₂
    | .err e lvl₁ => .err e lvl₁
  | .unaryOp op operand _, lvl =>
    match visit operand lvl with
    | .ok s lvl₁ => .ok ("(" ++ op ++ s ++ ")") lvl₁
    | .err e lvl₁ => .err e lvl₁
  | .block _ nodes _, lvl =>
    blockAssemble (visitList (indentOf (lvl + 1)) nodes (lvl + 1))
  | .function proto body _, lvl =>
    let args := visitArguments proto.args
    let returns :=
      match proto.return_type with
      | some t => " -> " ++ visitType t
      | none => ""
    let header := "def " ++ proto.name ++ "(" ++ args ++ ")" ++ returns ++ ":"
    match blockAssemble (visitList (indentOf (lvl + 1)) body (lvl + 1)) with
    | .ok b lvl₁ => .ok (header ++ "\n" ++ b) lvl₁
    | .err e lvl₁ => .err e lvl₁
  | .functionReturn value _, lvl =>
    match value with
    | none => .ok ("return " ++ "") lvl
    | some v =>
      match visit v lvl with
      | .ok s lvl₁ => .ok ("return " ++ s) lvl₁
      | .err e lvl₁ => .err e lvl₁
  | .ifExpr _ _ _ l, lvl => .err (.unsupportedConstruct "IfExpr" l) lvl
  | .ifStmt condition then_ else_ _, lvl =>
    match visit condition lvl with
    | .ok c lvl₁ =>
      match blockAssemble (visitList (indentOf (lvl₁ + 1)) then_ (lvl₁ + 1)) with
      | .ok t lvl₂ =>
        match else_ with
        | none => .ok ("if " ++ c ++ ":\n" ++ t) lvl₂
        | some els =>
          match blockAssemble (visitList (indentOf (lvl₂ + 1)) els (lvl₂ + 1)) with
          | .ok e lvl₃ =>
            .ok ("if " ++ c ++ ":\n" ++ t ++ "\nelse:\n" ++ e) lvl₃
          | .err e lvl₃ => .err e lvl₃
      | .err e lvl₂ => .err e lvl₂
    | .err e lvl₁ => .err e lvl₁
  | .literalBoolean b _, lvl => .ok (if b then "True" else "False") lvl
  | .literalInt32 n _, lvl => .ok (toString n) lvl
  | .variable name _, lvl => .ok name lvl
  | .variableAssignment name value _, lvl =>
    match visit value lvl with
    | .ok v lvl₁ => .ok (name ++ " = " ++ v) lvl₁
    | .err e lvl₁ => .err e lvl₁
  | .varDecl _ _ _ l, lvl => .err (.unsupportedConstruct "VarDecl" l) lvl
termination_by structural node _ => node

/-- The list comprehension `[indent + self.visit(node) for node in
block.nodes]`, threading the `indent_level` state left to right and
aborting on the first raised error. -/
def visitList (indent : String) (nodes : List AST) (lvl : Nat) : LRes :=
  match nodes with
  | [] => .ok [] lvl
  | n :: rest =>
    match visit n lvl with
    | .ok out lvl₁ =>
      match visitList indent rest lvl₁ with
      | .ok lines lvl₂ => .ok ((indent ++ out) :: lines) lvl₂
      | .err e lvl₂ => .err e lvl₂
    | .err e lvl₁ => .err e lvl₁
termination_by structural nodes

end

/-- `ASTxPythonTranspiler._generate_block`: increment `indent_level`,
compute the indent string once, render the children each prefixed with
that indent, join with newline (or emit the `pass` placeholder when
there are no children), then decrement.  There is no `try/finally`:
on a child error the decrement is skipped and the error propagates. -/
def generateBlock (nodes : List AST) (lvl : Nat) : VRes :=
  blockAssemble (visitList (indentOf (lvl + 1)) nodes (lvl + 1))

/-- `astx.blocks.Block`: the ordered child list plus the internal
iteration cursor `position` (initially `0`; `__iter__` returns `self`). -/
structure Block where
  name : String := "entry"
  nodes : List AST := []
  position : Nat := 0

/-- `Block.append`: append a new node to the child list. -/
def Block.append (b : Block) (value : AST) : Block :=
  { b with nodes := b.nodes ++ [value] }

/-- `Block.__next__`: raises `StopIteration` (modelled as `none`) when
`position` has reached the end of `nodes`; otherwise returns
`nodes[position]` and increments the cursor. -/
def Block.next (b : Block) : Option (AST × Block) :=
  if h : b.position < b.nodes.length then
    some (b.nodes.get ⟨b.position, h⟩, { b with position := b.position + 1 })
  else
    none

/-- Draining the iterator: the elements produced by repeated `next`
calls until `StopIteration`, together with the block as left behind. -/
def Block.drain (b : Block) : List AST × Block :=
  match h : b.next with
  | none => ([], b)
  | some (a, b₂) =>
    let r := b₂.drain
    (a :: r.1, r.2)
termination_by b.nodes.length - b.position
decreasing_by
  simp only [Block.next] at h
  split at h
  · simp only [Option.some.injEq, Prod.mk.injEq] at h
    obtain ⟨-, rfl⟩ := h
    simp only []
    omega
  · cases h

/-! ## Auxiliary definitions used by the verified properties -/

/-- `ASTxPythonTranspiler.__init__`: a freshly initialized engine starts
with `indent_level = 0`. -/
def initIndentLevel : Nat := 0

/-- Whether a node's kind has a `visit` overload registered with
`@dispatch`.  The `IfExpr` overload exists in the source text but lacks
the decorator, so the dispatcher never learns about it; `VarDecl` has no
overload at all.  Every other modelled kind is registered. -/
def registered : AST → Bool
  | .ifExpr .. => false
  | .varDecl .. => false
  | _ => true

/-- The body of the decorator-less `visit(astx.IfExpr)` overload
(python.py, the `IfExpr` handler): Python evaluates the f-string pieces
left to right — `then`, `condition`, then the optional `else_` — and the
pieces concatenate to `"{then} if " + " {cond}"`, plus
`" else {else}"` when `else_` is present.  Because the decorator is
missing this function is never reachable through `visit`. -/
def ifExprOrphanRule (condition then_ : AST) (else_ : Option AST)
    (lvl : Nat) : VRes :=
  match else_ with
  | some els =>
    match visit then_ lvl with
    | .ok t lvl₁ =>
      match visit condition lvl₁ with
      | .ok c lvl₂ =>
        match visit els lvl₂ with
        | .ok e lvl₃ => .ok (t ++ " if " ++ " " ++ c ++ " else " ++ e) lvl₃
        | .err e lvl₃ => .err e lvl₃
      | .err e lvl₂ => .err e lvl₂
    | .err e lvl₁ => .err e lvl₁
  | none =>
    match visit then_ lvl with
    | .ok t lvl₁ =>
      match visit condition lvl₁ with
      | .ok c lvl₂ => .ok (t ++ " if " ++ " " ++ c) lvl₂
      | .err e lvl₂ => .err e lvl₂
    | .err e lvl₁ => .err e lvl₁

/-- Did the render call succeed? -/
def VRes.isOk : VRes → Bool
  | .ok .. => true
  | .err .. => false

/-- The rendered text of a successful call (`""` on error). -/
def VRes.getOut : VRes → String
  | .ok out _ => out
  | .err _ _ => ""

/-- Number of leading space characters of a rendered line. -/
def leadingSpaces (s : String) : Nat :=
  (s.data.takeWhile (fun c => c = ' ')).length

/-- The `add` function of the spec's scenario (and of
`test_transpiler_function`): prototype `add(x: Int32, y: Int32) -> Int32`,
body `result = x + y` followed by `return result`, with the source
locations the test passes. -/
def addFunctionTree : AST :=
  .function ⟨"add", [⟨"x", .Int32⟩, ⟨"y", .Int32⟩], some .Int32⟩
    [ .variableAssignment "result"
        (.binaryOp "+" (.variable "x" ⟨0, 0⟩) (.variable "y" ⟨0, 0⟩) ⟨2, 8⟩)
        ⟨2, 4⟩,
      .functionReturn (some (.variable "result" ⟨0, 0⟩)) ⟨3, 4⟩ ]
    ⟨1, 0⟩

/-- A `Block` node whose only child is itself a `Block` node (holding a
single assignment): the tree on which the depth-indentation claim
breaks. -/
def doubleNestedBlock : AST :=
  .block "outer"
    [.block "inner" [.variableAssignment "x" (.literalInt32 1 ⟨0, 0⟩) ⟨0, 0⟩] ⟨0, 0⟩]
    ⟨0, 0⟩

/-- A `Block` whose only child has no registered rule, so rendering the
child raises mid-comprehension. -/
def unsupportedChildBlock : AST :=
  .block "entry" [.varDecl [] "Int32" [] ⟨5, 6⟩] ⟨1, 0⟩

/-! ## Unfolding lemmas

The nested-inductive structural recursion reduces definitionally, but no
equation lemmas are auto-generated, so we state them once by `rfl`. -/

theorem visit_eq_binaryOp (op : String) (lhs rhs : AST) (l : SourceLocation)
    (lvl : Nat) :
    visit (.binaryOp op lhs rhs l) lvl =
      match visit lhs lvl with
      | .ok lo lvl₁ =>
        match visit rhs lvl₁ with
        | .ok r lvl₂ => .ok ("(" ++ lo ++ " " ++ op ++ " " ++ r ++ ")") lvl₂
        | .err e lvl₂ => .err e lvl₂
      | .err e lvl₁ => .err e lvl₁ := rfl

theorem visit_eq_unaryOp (op : String) (operand : AST) (l : SourceLocation)
    (lvl : Nat) :
    visit (.unaryOp op operand l) lvl =
      match visit operand lvl with
      | .ok s lvl₁ => .ok ("(" ++ op ++ s ++ ")") lvl₁
      | .err e lvl₁ => .err e lvl₁ := rfl

theorem visit_eq_block (name : String) (nodes : List AST) (l : SourceLocation)
    (lvl : Nat) :
    visit (.block name nodes l) lvl =
      blockAssemble (visitList (indentOf (lvl + 1)) nodes (lvl + 1)) := rfl

theorem visit_eq_function (proto : FunctionPrototype) (body : List AST)
    (l : SourceLocation) (lvl : Nat) :
    visit (.function proto body l) lvl =
      match blockAssemble (visitList (indentOf (lvl + 1)) body (lvl + 1)) with
      | .ok b lvl₁ =>
        .ok (("def " ++ proto.name ++ "(" ++ visitArguments proto.args ++ ")" ++
          (match proto.return_type with
           | some t => " -> " ++ visitType t
           | none => "") ++ ":") ++ "\n" ++ b) lvl₁
      | .err e lvl₁ => .err e lvl₁ := rfl

theorem visit_eq_functionReturn_none (l : SourceLocation) (lvl : Nat) :
    visit (.functionReturn none l) lvl = .ok ("return " ++ "") lvl := rfl

theorem visit_eq_functionReturn_some (v : AST) (l : SourceLocation) (lvl : Nat) :
    visit (.functionReturn (some v) l) lvl =
      match visit v lvl with
      | .ok s lvl₁ => .ok ("return " ++ s) lvl₁
      | .err e lvl₁ => .err e lvl₁ := rfl

theorem visit_eq_ifExpr (c t : AST) (e : Option AST) (l : SourceLocation)
    (lvl : Nat) :
    visit (.ifExpr c t e l) lvl = .err (.unsupportedConstruct "IfExpr" l) lvl := rfl

theorem visit_eq_ifStmt_none (condition : AST) (then_ : List AST)
    (l : SourceLocation) (lvl : Nat) :
    visit (.ifStmt condition then_ none l) lvl =
      match visit condition lvl with
      | .ok c lvl₁ =>
        match blockAssemble (visitList (indentOf (lvl₁ + 1)) then_ (lvl₁ + 1)) with
        | .ok t lvl₂ => .ok ("if " ++ c ++ ":\n" ++ t) lvl₂
        | .err e lvl₂ => .err e lvl₂
      | .err e lvl₁ => .err e lvl₁ := rfl

theorem visit_eq_ifStmt_some (condition : AST) (then_ els : List AST)
    (l : SourceLocation) (lvl : Nat) :
    visit (.ifStmt condition then_ (some els) l) lvl =
      match visit condition lvl with
      | .ok c lvl₁ =>
        match blockAssemble (visitList (indentOf (lvl₁ + 1)) then_ (lvl₁ + 1)) with
        | .ok t lvl₂ =>
          match blockAssemble (visitList (indentOf (lvl₂ + 1)) els (lvl₂ + 1)) with
          | .ok e lvl₃ =>
            .ok ("if " ++ c ++ ":\n" ++ t ++ "\nelse:\n" ++ e) lvl₃
          | .err e lvl₃ => .err e lvl₃
        | .err e lvl₂ => .err e lvl₂
      | .err e lvl₁ => .err e lvl₁ := rfl

theorem visit_eq_literalBoolean (b : Bool) (l : SourceLocation) (lvl : Nat) :
    visit (.literalBoolean b l) lvl = .ok (if b then "True" else "False") lvl := rfl

theorem visit_eq_literalInt32 (n : Int) (l : SourceLocation) (lvl : Nat) :
    visit (.literalInt32 n l) lvl = .ok (toString n) lvl := rfl

theorem visit_eq_variable (name : String) (l : SourceLocation) (lvl : Nat) :
    visit (.variable name l) lvl = .ok name lvl := rfl

theorem visit_eq_variableAssignment (name : String) (value : AST)
    (l : SourceLocation) (lvl : Nat) :
    visit (.variableAssignment name value l) lvl =
      match visit value lvl with
      | .ok v lvl₁ => .ok (name ++ " = " ++ v) lvl₁
      | .err e lvl₁ => .err e lvl₁ := rfl

theorem visit_eq_varDecl (vn : List (String × AST)) (tn : String)
    (b : List AST) (l : SourceLocation) (lvl : Nat) :
    visit (.varDecl vn tn b l) lvl = .err (.unsupportedConstruct "VarDecl" l) lvl := rfl

theorem visitList_eq_nil (indent : String) (lvl : Nat) :
    visitList indent [] lvl = .ok [] lvl := rfl

theorem visitList_eq_cons (indent : String) (n : AST) (rest : List AST)
    (lvl : Nat) :
    visitList indent (n :: rest) lvl =
      match visit n lvl with
      | .ok out lvl₁ =>
        match visitList indent rest lvl₁ with
        | .ok lines lvl₂ => .ok ((indent ++ out) :: lines) lvl₂
        | .err e lvl₂ => .err e lvl₂
      | .err e lvl₁ => .err e lvl₁ := rfl

/-- `_generate_block` is the `blockAssemble`/`visitList` composition
written inline in `visit` (and the `Block` rule just calls it). -/
theorem visit_block_generateBlock (name : String) (nodes : List AST)
    (l : SourceLocation) (lvl : Nat) :
    visit (.block name nodes l) lvl = generateBlock nodes lvl := rfl

/-! ## State discipline of the `indent_level` counter -/

/-- What one `visit` call does to the counter: restores it on success,
never moves it below its entry value on a raised error. -/
def VRes.stateOK (r : VRes) (lvl : Nat) : Prop :=
  match r with
  | .ok _ lvl' => lvl' = lvl
  | .err _ lvl' => lvl ≤ lvl'

/-- Same discipline for a rendered child list. -/
def LRes.stateOK (r : LRes) (lvl : Nat) : Prop :=
  match r with
  | .ok _ lvl' => lvl' = lvl
  | .err _ lvl' => lvl ≤ lvl'

theorem blockAssemble_stateOK (r : LRes) (lvl : Nat)
    (h : r.stateOK (lvl + 1)) : (blockAssemble r).stateOK lvl := by
  rcases r with ⟨lines, lvl₁⟩ | ⟨e, lvl₁⟩
  · simp only [LRes.stateOK] at h
    subst h
    simp only [blockAssemble]
    split <;> simp [VRes.stateOK]
  · simp only [LRes.stateOK] at h
    simp only [blockAssemble, VRes.stateOK]
    omega

mutual

theorem visit_stateOK : ∀ (t : AST) (lvl : Nat), (visit t lvl).stateOK lvl
  | .binaryOp op lhs rhs l, lvl => by
    have h₁ := visit_stateOK lhs lvl
    rw [visit_eq_binaryOp]
    rcases e₁ : visit lhs lvl with ⟨o₁, a₁⟩ | ⟨x₁, a₁⟩ <;> rw [e₁] at h₁
    · have h₂ := visit_stateOK rhs a₁
      rcases e₂ : visit rhs a₁ with ⟨o₂, a₂⟩ | ⟨x₂, a₂⟩ <;> rw [e₂] at h₂ <;>
        simp_all [VRes.stateOK]
    · simp_all [VRes.stateOK]
  | .unaryOp op operand l, lvl => by
    have h₁ := visit_stateOK operand lvl
    rw [visit_eq_unaryOp]
    rcases e₁ : visit operand lvl with ⟨o₁, a₁⟩ | ⟨x₁, a₁⟩ <;> rw [e₁] at h₁ <;>
      simp_all [VRes.stateOK]
  | .block name nodes l, lvl => by
    rw [visit_eq_block]
    exact blockAssemble_stateOK _ lvl
      (visitList_stateOK (indentOf (lvl + 1)) nodes (lvl + 1))
  | .function proto body l, lvl => by
    have h₁ := blockAssemble_stateOK _ lvl
      (visitList_stateOK (indentOf (lvl + 1)) body (lvl + 1))
    rw [visit_eq_function]
    rcases e₁ : blockAssemble (visitList (indentOf (lvl + 1)) body (lvl + 1)) with
      ⟨o₁, a₁⟩ | ⟨x₁, a₁⟩ <;> rw [e₁] at h₁ <;> simp_all [VRes.stateOK]
  | .functionReturn none l, lvl => by
    simp [visit_eq_functionReturn_none, VRes.stateOK]
  | .functionReturn (some v) l, lvl => by
    have h₁ := visit_stateOK v lvl
    rw [visit_eq_functionReturn_some]
    rcases e₁ : visit v lvl with ⟨o₁, a₁⟩ | ⟨x₁, a₁⟩ <;> rw [e₁] at h₁ <;>
      simp_all [VRes.stateOK]
  | .ifExpr c t e l, lvl => by simp [visit_eq_ifExpr, VRes.stateOK]
  | .ifStmt condition then_ else_ l, lvl => by
    have h₁ := visit_stateOK condition lvl
    rcases else_ with _ | els
    · rw [visit_eq_ifStmt_none]
      rcases e₁ : visit condition lvl with ⟨o₁, a₁⟩ | ⟨x₁, a₁⟩ <;> rw [e₁] at h₁
      · have h₂ := blockAssemble_stateOK _ a₁
          (visitList_stateOK (indentOf (a₁ + 1)) then_ (a₁ + 1))
        rcases e₂ : blockAssemble (visitList (indentOf (a₁ + 1)) then_ (a₁ + 1)) with
          ⟨o₂, a₂⟩ | ⟨x₂, a₂⟩ <;> rw [e₂] at h₂ <;> simp_all [VRes.stateOK] <;> omega
      · simp_all [VRes.stateOK]
    · rw [visit_eq_ifStmt_some]
      rcases e₁ : visit condition lvl with ⟨o₁, a₁⟩ | ⟨x₁, a₁⟩ <;> rw [e₁] at h₁
      · have h₂ := blockAssemble_stateOK _ a₁
          (visitList_stateOK (indentOf (a₁ + 1)) then_ (a₁ + 1))
        rcases e₂ : blockAssemble (visitList (indentOf (a₁ + 1)) then_ (a₁ + 1)) with
          ⟨o₂, a₂⟩ | ⟨x₂, a₂⟩ <;> rw [e₂] at h₂
        · have h₃ := blockAssemble_stateOK _ a₂
            (visitList_stateOK (indentOf (a₂ + 1)) els (a₂ + 1))
          rcases e₃ : blockAssemble (visitList (indentOf (a₂ + 1)) els (a₂ + 1)) with
            ⟨o₃, a₃⟩ | ⟨x₃, a₃⟩ <;> rw [e₃] at h₃ <;> simp_all [VRes.stateOK] <;> omega
        · simp_all [VRes.stateOK] <;> omega
      · simp_all [VRes.stateOK]
  | .literalBoolean b l, lvl => by simp [visit_eq_literalBoolean, VRes.stateOK]
  | .literalInt32 n l, lvl => by simp [visit_eq_literalInt32, VRes.stateOK]
  | .variable name l, lvl => by simp [visit_eq_variable, VRes.stateOK]
  | .variableAssignment name value l, lvl => by
    have h₁ := visit_stateOK value lvl
    rw [visit_eq_variableAssignment]
    rcases e₁ : visit value lvl with ⟨o₁, a₁⟩ | ⟨x₁, a₁⟩ <;> rw [e₁] at h₁ <;>
      simp_all [VRes.stateOK]
  | .varDecl vn tn b l, lvl => by simp [visit_eq_varDecl, VRes.stateOK]
termination_by structural t _ => t

theorem visitList_stateOK :
    ∀ (indent : String) (nodes : List AST) (lvl : Nat),
      (visitList indent nodes lvl).stateOK lvl
  | indent, [], lvl => by simp [visitList_eq_nil, LRes.stateOK]
  | indent, n :: rest, lvl => by
    have h₁ := visit_stateOK n lvl
    rw [visitList_eq_cons]
    rcases e₁ : visit n lvl with ⟨o₁, a₁⟩ | ⟨x₁, a₁⟩ <;> rw [e₁] at h₁
    · have h₂ := visitList_stateOK indent rest a₁
      rcases e₂ : visitList indent rest a₁ with ⟨o₂, a₂⟩ | ⟨x₂, a₂⟩ <;>
        rw [e₂] at h₂ <;> simp_all [VRes.stateOK, LRes.stateOK]
    · simp_all [VRes.stateOK, LRes.stateOK]
termination_by structural _ nodes _ => nodes

end

/-! ## The outcome (success, or the exact error raised) is independent of
the `indent_level` the render starts from -/

/-- Two render results agree in kind, and on failure raise the very same
error (the fallback message depends on the node only, not the counter). -/
def sameOutcomeV : VRes → VRes → Prop
  | .ok _ _, .ok _ _ => True
  | .err e₁ _, .err e₂ _ => e₁ = e₂
  | _, _ => False

/-- Same relation for child-list results. -/
def sameOutcomeL : LRes → LRes → Prop
  | .ok _ _, .ok _ _ => True
  | .err e₁ _, .err e₂ _ => e₁ = e₂
  | _, _ => False

theorem blockAssemble_outcome {r₁ r₂ : LRes} (h : sameOutcomeL r₁ r₂) :
    sameOutcomeV (blockAssemble r₁) (blockAssemble r₂) := by
  rcases r₁ with ⟨l₁, a₁⟩ | ⟨e₁, a₁⟩ <;> rcases r₂ with ⟨l₂, a₂⟩ | ⟨e₂, a₂⟩ <;>
    simp only [sameOutcomeL] at h
  · simp only [blockAssemble]
    split <;> split <;> simp [sameOutcomeV]
  · simp only [blockAssemble, sameOutcomeV]
    exact h

mutual

theorem visit_outcome :
    ∀ (t : AST) (lvl₁ lvl₂ : Nat), sameOutcomeV (visit t lvl₁) (visit t lvl₂)
  | .binaryOp op lhs rhs l, lvl₁, lvl₂ => by
    have h₁ := visit_outcome lhs lvl₁ lvl₂
    simp only [visit_eq_binaryOp]
    rcases e₁ : visit lhs lvl₁ with ⟨o₁, a₁⟩ | ⟨x₁, a₁⟩ <;>
      rcases e₂ : visit lhs lvl₂ with ⟨o₂, a₂⟩ | ⟨x₂, a₂⟩ <;>
      rw [e₁, e₂] at h₁ <;> simp only [sameOutcomeV] at h₁ ⊢
    · have h₂ := visit_outcome rhs a₁ a₂
      rcases e₃ : visit rhs a₁ with ⟨o₃, a₃⟩ | ⟨x₃, a₃⟩ <;>
        rcases e₄ : visit rhs a₂ with ⟨o₄, a₄⟩ | ⟨x₄, a₄⟩ <;>
        rw [e₃, e₄] at h₂ <;> simp_all [sameOutcomeV]
    · exact h₁
  | .unaryOp op operand l, lvl₁, lvl₂ => by
    have h₁ := visit_outcome operand lvl₁ lvl₂
    simp only [visit_eq_unaryOp]
    rcases e₁ : visit operand lvl₁ with ⟨o₁, a₁⟩ | ⟨x₁, a₁⟩ <;>
      rcases e₂ : visit operand lvl₂ with ⟨o₂, a₂⟩ | ⟨x₂, a₂⟩ <;>
      rw [e₁, e₂] at h₁ <;> simp_all [sameOutcomeV]
  | .block name nodes l, lvl₁, lvl₂ => by
    simp only [visit_eq_block]
    exact blockAssemble_outcome
      (visitList_outcome nodes (indentOf (lvl₁ + 1)) (indentOf (lvl₂ + 1))
        (lvl₁ + 1) (lvl₂ + 1))
  | .function proto body l, lvl₁, lvl₂ => by
    have h₁ := blockAssemble_outcome
      (visitList_outcome body (indentOf (lvl₁ + 1)) (indentOf (lvl₂ + 1))
        (lvl₁ + 1) (lvl₂ + 1))
    simp only [visit_eq_function]
    rcases e₁ : blockAssemble (visitList (indentOf (lvl₁ + 1)) body (lvl₁ + 1)) with
      ⟨o₁, a₁⟩ | ⟨x₁, a₁⟩ <;>
      rcases e₂ : blockAssemble (visitList (indentOf (lvl₂ + 1)) body (lvl₂ + 1)) with
        ⟨o₂, a₂⟩ | ⟨x₂, a₂⟩ <;>
      rw [e₁, e₂] at h₁ <;> simp_all [sameOutcomeV]
  | .functionReturn none l, lvl₁, lvl₂ => by
    simp [visit_eq_functionReturn_none, sameOutcomeV]
  | .functionReturn (some v) l, lvl₁, lvl₂ => by
    have h₁ := visit_outcome v lvl₁ lvl₂
    simp only [visit_eq_functionReturn_some]
    rcases e₁ : visit v lvl₁ with ⟨o₁, a₁⟩ | ⟨x₁, a₁⟩ <;>
      rcases e₂ : visit v lvl₂ with ⟨o₂, a₂⟩ | ⟨x₂, a₂⟩ <;>
      rw [e₁, e₂] at h₁ <;> simp_all [sameOutcomeV]
  | .ifExpr c t e l, lvl₁, lvl₂ => by
    simp [visit_eq_ifExpr, sameOutcomeV]
  | .ifStmt condition then_ none l, lvl₁, lvl₂ => by
    have h₁ := visit_outcome condition lvl₁ lvl₂
    simp only [visit_eq_ifStmt_none]
    rcases e₁ : visit condition lvl₁ with ⟨o₁, a₁⟩ | ⟨x₁, a₁⟩ <;>
      rcases e₂ : visit condition lvl₂ with ⟨o₂, a₂⟩ | ⟨x₂, a₂⟩ <;>
      rw [e₁, e₂] at h₁ <;> simp only [sameOutcomeV] at h₁ ⊢
    · have h₂ := blockAssemble_outcome
        (visitList_outcome then_ (indentOf (a₁ + 1)) (indentOf (a₂ + 1))
          (a₁ + 1) (a₂ + 1))
      rcases e₃ : blockAssemble (visitList (indentOf (a₁ + 1)) then_ (a₁ + 1)) with
        ⟨o₃, a₃⟩ | ⟨x₃, a₃⟩ <;>
        rcases e₄ : blockAssemble (visitList (indentOf (a₂ + 1)) then_ (a₂ + 1)) with
          ⟨o₄, a₄⟩ | ⟨x₄, a₄⟩ <;>
        rw [e₃, e₄] at h₂ <;> simp_all [sameOutcomeV]
    · exact h₁
  | .ifStmt condition then_ (some els) l, lvl₁, lvl₂ => by
    have h₁ := visit_outcome condition lvl₁ lvl₂
    simp only [visit_eq_ifStmt_some]
    rcases e₁ : visit condition lvl₁ with ⟨o₁, a₁⟩ | ⟨x₁, a₁⟩ <;>
      rcases e₂ : visit condition lvl₂ with ⟨o₂, a₂⟩ | ⟨x₂, a₂⟩ <;>
      rw [e₁, e₂] at h₁ <;> simp only [sameOutcomeV] at h₁ ⊢
    · have h₂ := blockAssemble_outcome
        (visitList_outcome then_ (indentOf (a₁ + 1)) (indentOf (a₂ + 1))
          (a₁ + 1) (a₂ + 1))
      rcases e₃ : blockAssemble (visitList (indentOf (a₁ + 1)) then_ (a₁ + 1)) with
        ⟨o₃, a₃⟩ | ⟨x₃, a₃⟩ <;>
        rcases e₄ : blockAssemble (visitList (indentOf (a₂ + 1)) then_ (a₂ + 1)) with
          ⟨o₄, a₄⟩ | ⟨x₄, a₄⟩ <;>
        rw [e₃, e₄] at h₂ <;> simp only [sameOutcomeV] at h₂ ⊢
      · have h₃ := blockAssemble_outcome
          (visitList_outcome els (indentOf (a₃ + 1)) (indentOf (a₄ + 1))
            (a₃ + 1) (a₄ + 1))
        rcases e₅ : blockAssemble (visitList (indentOf (a₃ + 1)) els (a₃ + 1)) with
          ⟨o₅, a₅⟩ | ⟨x₅, a₅⟩ <;>
          rcases e₆ : blockAssemble (visitList (indentOf (a₄ + 1)) els (a₄ + 1)) with
            ⟨o₆, a₆⟩ | ⟨x₆, a₆⟩ <;>
          rw [e₅, e₆] at h₃ <;> simp_all [sameOutcomeV]
      · exact h₂
    · exact h₁
  | .literalBoolean b l, lvl₁, lvl₂ => by
    simp [visit_eq_literalBoolean, sameOutcomeV]
  | .literalInt32 n l, lvl₁, lvl₂ => by
    simp [visit_eq_literalInt32, sameOutcomeV]
  | .variable name l, lvl₁, lvl₂ => by
    simp [visit_eq_variable, sameOutcomeV]
  | .variableAssignment name value l, lvl₁, lvl₂ => by
    have h₁ := visit_outcome value lvl₁ lvl₂
    simp only [visit_eq_variableAssignment]
    rcases e₁ : visit value lvl₁ with ⟨o₁, a₁⟩ | ⟨x₁, a₁⟩ <;>
      rcases e₂ : visit value lvl₂ with ⟨o₂, a₂⟩ | ⟨x₂, a₂⟩ <;>
      rw [e₁, e₂] at h₁ <;> simp_all [sameOutcomeV]
  | .varDecl vn tn b l, lvl₁, lvl₂ => by
    simp [visit_eq_varDecl, sameOutcomeV]
termination_by structural t _ _ => t

theorem visitList_outcome :
    ∀ (nodes : List AST) (ind₁ ind₂ : String) (lvl₁ lvl₂ : Nat),
      sameOutcomeL (visitList ind₁ nodes lvl₁) (visitList ind₂ nodes lvl₂)
  | [], ind₁, ind₂, lvl₁, lvl₂ => by
    simp [visitList_eq_nil, sameOutcomeL]
  | n :: rest, ind₁, ind₂, lvl₁, lvl₂ => by
    have h₁ := visit_outcome n lvl₁ lvl₂
    simp only [visitList_eq_cons]
    rcases e₁ : visit n lvl₁ with ⟨o₁, a₁⟩ | ⟨x₁, a₁⟩ <;>
      rcases e₂ : visit n lvl₂ with ⟨o₂, a₂⟩ | ⟨x₂, a₂⟩ <;>
      rw [e₁, e₂] at h₁ <;> simp only [sameOutcomeV] at h₁ <;>
      simp only [sameOutcomeL]
    · have h₂ := visitList_outcome rest ind₁ ind₂ a₁ a₂
      rcases e₃ : visitList ind₁ rest a₁ with ⟨o₃, a₃⟩ | ⟨x₃, a₃⟩ <;>
        rcases e₄ : visitList ind₂ rest a₂ with ⟨o₄, a₄⟩ | ⟨x₄, a₄⟩ <;>
        rw [e₃, e₄] at h₂ <;> simp_all [sameOutcomeL]
    · exact h₁
termination_by structural nodes _ _ _ _ => nodes

end

/-! ## Supporting lemmas -/

theorem indentOf_data (n : Nat) :
    (indentOf n).data = List.replicate (4 * n) ' ' := by
  induction n with
  | zero => rfl
  | succ n ih =>
    show ("    " ++ indentOf n).data = _
    rw [String.data_append, ih, Nat.mul_succ, Nat.add_comm, List.replicate_add]
    rfl

theorem visitList_ok_of_all (indent : String) :
    ∀ (nodes : List AST) (lvl : Nat),
      (∀ n ∈ nodes, (visit n lvl).isOk = true) →
      visitList indent nodes lvl =
        .ok (nodes.map (fun n => indent ++ (visit n lvl).getOut)) lvl := by
  intro nodes
  induction nodes with
  | nil => intro lvl _; simp [visitList_eq_nil]
  | cons n rest ih =>
    intro lvl h
    have hn := h n (List.mem_cons_self n rest)
    rcases ev : visit n lvl with ⟨o, a⟩ | ⟨x, a⟩
    · have hs := visit_stateOK n lvl
      rw [ev] at hs
      simp only [VRes.stateOK] at hs
      rw [visitList_eq_cons, ev, hs]
      simp only [ih lvl (fun m hm => h m (List.mem_cons_of_mem n hm))]
      simp [ev, VRes.getOut]
    · rw [ev] at hn
      simp [VRes.isOk] at hn

theorem Block.foldl_append (ns : List AST) :
    ∀ b : Block, List.foldl Block.append b ns =
      ⟨b.name, b.nodes ++ ns, b.position⟩ := by
  induction ns with
  | nil => intro b; simp
  | cons n rest ih =>
    intro b
    rw [List.foldl_cons, ih]
    simp [Block.append]

theorem Block.drain_next_none {b : Block} (h : b.next = none) :
    b.drain = ([], b) := by
  rw [Block.drain]
  split
  · rfl
  · next a b₂ hsome =>
    rw [h] at hsome
    cases hsome

theorem Block.drain_next_some {b : Block} {a : AST} {b₂ : Block}
    (h : b.next = some (a, b₂)) :
    b.drain = (a :: b₂.drain.1, b₂.drain.2) := by
  rw [Block.drain]
  split
  · next hnone =>
    rw [h] at hnone
    cases hnone
  · next a₂ b₃ hsome =>
    rw [h] at hsome
    simp only [Option.some.injEq, Prod.mk.injEq] at hsome
    obtain ⟨h₁, h₂⟩ := hsome
    rw [h₁, h₂]

theorem Block.drain_exhausted (b : Block) (h : b.nodes.length ≤ b.position) :
    b.drain = ([], b) :=
  Block.drain_next_none (by simp only [Block.next]; rw [dif_neg]; omega)

theorem Block.drain_eq_aux :
    ∀ (k : Nat) (b : Block), b.nodes.length - b.position ≤ k →
      b.position ≤ b.nodes.length →
      b.drain = (b.nodes.drop b.position, ⟨b.name, b.nodes, b.nodes.length⟩) := by
  intro k
  induction k with
  | zero =>
    intro b hk h
    have hpos : b.position = b.nodes.length := by omega
    rw [Block.drain_exhausted b (by omega), hpos, List.drop_length]
    cases b
    simp_all
  | succ k ih =>
    intro b hk h
    rcases Nat.lt_or_ge b.position b.nodes.length with hlt | hge
    · have hn : b.next =
          some (b.nodes.get ⟨b.position, hlt⟩, { b with position := b.position + 1 }) := by
        simp [Block.next, hlt]
      rw [Block.drain_next_some hn,
        ih { b with position := b.position + 1 } (by simp; omega) (by simp; omega)]
      simp only [List.get_eq_getElem]
      rw [List.drop_eq_getElem_cons hlt]
    · have hpos : b.position = b.nodes.length := by omega
      rw [Block.drain_exhausted b hge, hpos, List.drop_length]
      cases b
      simp_all

theorem Block.drain_eq (b : Block) (h : b.position ≤ b.nodes.length) :
    b.drain = (b.nodes.drop b.position, ⟨b.name, b.nodes, b.nodes.length⟩) :=
  Block.drain_eq_aux (b.nodes.length - b.position) b (Nat.le_refl _) h

/-! ## The claims -/

/-- Claim C1: visiting the `add` Function node (two `Int32` arguments
`x`, `y`, return type `Int32`, body assigning the BinaryOp `x + y` to
`result` and then returning `result`) from a freshly initialized engine
produces exactly three lines: the header declaring both parameter types
and the return type, then the assignment line and the return line, each
prefixed by one 4-space indentation level. -/
theorem add_function_renders_three_lines :
    visit addFunctionTree initIndentLevel =
      .ok (String.intercalate "\n"
        [ "def add(x: int, y: int) -> int:",
          "    " ++ "result = (x + y)",
          "    " ++ "return result" ]) initIndentLevel := by
  rfl

/-- Claim C2: rendering any node whose kind has no entry registered in
the dispatch table fails with the `UnsupportedConstruct` condition
carrying that node's kind tag and source location; the failure is the
call's result (surfaced to the caller), never a silently skipped child. -/
theorem unregistered_kind_raises_unsupported (t : AST) (lvl : Nat)
    (h : registered t = false) :
    visit t lvl = .err (.unsupportedConstruct t.kind t.loc) lvl := by
  cases t with
  | binaryOp op lhs rhs l => simp [registered] at h
  | unaryOp op operand l => simp [registered] at h
  | block name nodes l => simp [registered] at h
  | function p b l => simp [registered] at h
  | functionReturn v l => simp [registered] at h
  | ifExpr c th e l => simp [visit_eq_ifExpr, AST.kind, AST.loc]
  | ifStmt c th e l => simp [registered] at h
  | literalBoolean b l => simp [registered] at h
  | literalInt32 n l => simp [registered] at h
  | «variable» n l => simp [registered] at h
  | variableAssignment n v l => simp [registered] at h
  | varDecl vn tn b l => simp [visit_eq_varDecl, AST.kind, AST.loc]

/-- Witness for C2 at a concrete `VarDecl` node. -/
theorem unregistered_kind_raises_unsupported_witness :
    registered (.varDecl [] "Int32" [] ⟨5, 6⟩) = false
    ∧ visit (.varDecl [] "Int32" [] ⟨5, 6⟩) 0 =
        .err (.unsupportedConstruct "VarDecl" ⟨5, 6⟩) 0 :=
  ⟨rfl, unregistered_kind_raises_unsupported (.varDecl [] "Int32" [] ⟨5, 6⟩) 0 rfl⟩

/-- Claim C3 is false as stated: rendering `unsupportedChildBlock` (one
unrenderable child) from counter `0` propagates the child's error with
the counter left at `1`, not restored to its entry value `0` — there is
no `try/finally` around the increment/decrement pair. -/
theorem block_error_counter_not_restored_counterexample :
    visit unsupportedChildBlock 0 =
      .err (.unsupportedConstruct "VarDecl" ⟨5, 6⟩) 1
    ∧ (1 : Nat) ≠ 0 :=
  ⟨rfl, by decide⟩

/-- Claim C3 (amended): when rendering a Block child raises, the error
propagates with the indentation counter still at least one above its
entry value (the decrement is skipped); the counter is restored exactly
when the whole Block renders successfully. -/
theorem block_error_leaves_counter_incremented (name : String)
    (nodes : List AST) (l : SourceLocation) (lvl lvl' : Nat) :
    (∀ e, visit (.block name nodes l) lvl = .err e lvl' → lvl + 1 ≤ lvl')
    ∧ (∀ out, visit (.block name nodes l) lvl = .ok out lvl' → lvl' = lvl) := by
  constructor
  · intro e he
    rw [visit_eq_block] at he
    have hs := visitList_stateOK (indentOf (lvl + 1)) nodes (lvl + 1)
    rcases ev : visitList (indentOf (lvl + 1)) nodes (lvl + 1) with
      ⟨o, a⟩ | ⟨x, a⟩ <;> rw [ev] at he hs
    · simp only [blockAssemble] at he
      split at he <;> cases he
    · simp only [blockAssemble] at he
      cases he
      simpa [LRes.stateOK] using hs
  · intro out ho
    have hs := visit_stateOK (.block name nodes l) lvl
    rw [ho] at hs
    simpa [VRes.stateOK] using hs

/-- Witness for the amended C3, at the block with a failing child. -/
theorem block_error_leaves_counter_incremented_witness : 0 + 1 ≤ 1 :=
  (block_error_leaves_counter_incremented "entry"
      [.varDecl [] "Int32" [] ⟨5, 6⟩] ⟨1, 0⟩ 0 1).1
    (.unsupportedConstruct "VarDecl" ⟨5, 6⟩) rfl

/-- Claim C4: a Block with zero children renders to the `pass`
placeholder line, indented one level below the Block's entry counter,
and never to the empty string. -/
theorem empty_block_renders_pass (name : String) (l : SourceLocation)
    (lvl : Nat) :
    visit (.block name [] l) lvl = .ok (indentOf (lvl + 1) ++ "pass") lvl
    ∧ indentOf (lvl + 1) ++ "pass" ≠ "" := by
  constructor
  · rw [visit_eq_block, visitList_eq_nil]
    simp [blockAssemble]
  · intro hc
    have hlen := congrArg String.length hc
    rw [String.length_append] at hlen
    have h1 : ("pass" : String).length = 4 := rfl
    have h2 : ("" : String).length = 0 := rfl
    omega

/-- Claim C5 is false as stated: in `doubleNestedBlock` the assignment
node sits at Block-depth 2, so the claim demands `2 * 4 = 8` leading
spaces, but its line carries 12 — the outer Block prefixes the inner
Block's already-indented first line a second time. -/
theorem depth_indentation_counterexample :
    visit doubleNestedBlock 0 = .ok "            x = 1" 0
    ∧ leadingSpaces "            x = 1" = 12
    ∧ (12 : Nat) ≠ 2 * 4 :=
  ⟨rfl, rfl, by decide⟩

/-- Claim C5 (amended): a Block entered at counter `lvl` renders each
child at counter `lvl + 1` (increment on entry), prefixes each child's
text with exactly `4 * (lvl + 1)` spaces, joins with newline, and
restores the counter to `lvl` on exit; so with a freshly initialized
engine a node at Block-depth `d` receives prefix `d * 4` spaces — though
its final output *line* can carry more when its Block is itself the
direct child of a Block (see the counterexample). -/
theorem block_children_prefixed_by_depth (name : String) (nodes : List AST)
    (l : SourceLocation) (lvl : Nat)
    (hok : ∀ n ∈ nodes, (visit n (lvl + 1)).isOk = true)
    (hne : nodes ≠ []) :
    visit (.block name nodes l) lvl =
      .ok (String.intercalate "\n"
        (nodes.map (fun n => indentOf (lvl + 1) ++ (visit n (lvl + 1)).getOut)))
        lvl
    ∧ (indentOf (lvl + 1)).data = List.replicate (4 * (lvl + 1)) ' ' := by
  constructor
  · rw [visit_eq_block, visitList_ok_of_all _ nodes (lvl + 1) hok]
    simp [blockAssemble, hne]
  · exact indentOf_data _

/-- Witness for the amended C5 at a one-statement block. -/
theorem block_children_prefixed_by_depth_witness :
    visit (.block "entry" [.variableAssignment "x" (.literalInt32 1 ⟨0, 0⟩) ⟨0, 0⟩] ⟨0, 0⟩) 0 =
      .ok (String.intercalate "\n"
        ([.variableAssignment "x" (.literalInt32 1 ⟨0, 0⟩) ⟨0, 0⟩].map
          (fun n => indentOf 1 ++ (visit n 1).getOut))) 0
    ∧ (indentOf 1).data = List.replicate 4 ' ' :=
  block_children_prefixed_by_depth "entry"
    [.variableAssignment "x" (.literalInt32 1 ⟨0, 0⟩) ⟨0, 0⟩] ⟨0, 0⟩ 0
    (by decide) (List.cons_ne_nil _ _)

/-- Claim C6 names a code bug: the `visit(astx.IfExpr)` overload exists
in the source but lacks its `@dispatch` decorator, so it is never
registered; visiting an `IfExpr` therefore falls to the abstract
fallback and raises instead of producing the inline conditional form the
orphaned rule (and the spec's catalog) describes. -/
theorem ifexpr_not_dispatched_code_bug :
    visit (.ifExpr (.literalBoolean true ⟨1, 5⟩) (.literalInt32 1 ⟨1, 0⟩) none ⟨1, 0⟩) 0
      = .err (.unsupportedConstruct "IfExpr" ⟨1, 0⟩) 0
    ∧ ifExprOrphanRule (.literalBoolean true ⟨1, 5⟩) (.literalInt32 1 ⟨1, 0⟩) none 0
      = .ok "1 if  True" 0 :=
  ⟨rfl, rfl⟩

/-- Claim C7 is false as stated: a `FunctionReturn` without a value
renders to `"return "` — the keyword followed by a trailing space left
behind by the `f"return {value}"` template — not to the bare keyword. -/
theorem bare_return_counterexample :
    visit (.functionReturn none ⟨3, 4⟩) 0 = .ok "return " 0
    ∧ "return " ≠ "return" :=
  ⟨rfl, by decide⟩

/-- Claim C7 (amended): `FunctionReturn` renders to `return <value>`
when a value is present, and to `return ` (keyword plus one trailing
space, nothing else) when no value is present. -/
theorem function_return_rendering (l : SourceLocation) (lvl : Nat) :
    visit (.functionReturn none l) lvl = .ok "return " lvl
    ∧ ∀ (v : AST) (out : String) (lvl' : Nat), visit v lvl = .ok out lvl' →
        visit (.functionReturn (some v) l) lvl = .ok ("return " ++ out) lvl' := by
  constructor
  · rw [visit_eq_functionReturn_none]
    rfl
  · intro v out lvl' hv
    rw [visit_eq_functionReturn_some, hv]

/-- Witness for the amended C7 at `return result`. -/
theorem function_return_rendering_witness :
    visit (.functionReturn (some (.variable "result" ⟨0, 0⟩)) ⟨3, 4⟩) 0 =
      .ok ("return " ++ "result") 0 :=
  (function_return_rendering ⟨3, 4⟩ 0).2 (.variable "result" ⟨0, 0⟩) "result" 0 rfl

/-- Claim C8: draining a freshly-built Block's iterator yields exactly
the appended children in append order, with end-of-sequence signalled as
the `none` control-flow event; draining the same Block again without
resetting the cursor yields no elements. -/
theorem block_single_pass_traversal (name : String) (nodes : List AST) :
    List.foldl Block.append ⟨name, [], 0⟩ nodes = (⟨name, nodes, 0⟩ : Block)
    ∧ (⟨name, nodes, 0⟩ : Block).drain = (nodes, ⟨name, nodes, nodes.length⟩)
    ∧ (⟨name, nodes, nodes.length⟩ : Block).next = none
    ∧ (⟨name, nodes, nodes.length⟩ : Block).drain =
        ([], ⟨name, nodes, nodes.length⟩) := by
  refine ⟨?_, ?_, ?_, ?_⟩
  · rw [Block.foldl_append]
    simp
  · simpa using Block.drain_eq ⟨name, nodes, 0⟩ (by simp)
  · simp [Block.next]
  · exact Block.drain_exhausted _ (by simp)

/-- Claim C9: rendering is deterministic.  On success the engine's
counter is restored, so re-rendering the same tree on the same engine
instance yields the byte-identical text; on failure, re-rendering from
the state the failure left behind raises the very same error. -/
theorem render_deterministic (t : AST) (lvl : Nat) :
    (∀ out lvl', visit t lvl = .ok out lvl' →
        lvl' = lvl ∧ visit t lvl' = .ok out lvl')
    ∧ (∀ e lvl', visit t lvl = .err e lvl' →
        ∃ lvl₂, visit t lvl' = .err e lvl₂) := by
  constructor
  · intro out lvl' h
    have hs := visit_stateOK t lvl
    rw [h] at hs
    simp only [VRes.stateOK] at hs
    subst hs
    exact ⟨rfl, h⟩
  · intro e lvl' h
    have ho := visit_outcome t lvl' lvl
    rw [h] at ho
    rcases ev : visit t lvl' with ⟨o, a⟩ | ⟨x, a⟩ <;> rw [ev] at ho <;>
      simp only [sameOutcomeV] at ho
    exact ⟨a, by rw [ho]⟩

/-- Witness for C9 at a concrete tree. -/
theorem render_deterministic_witness :
    0 = 0 ∧ visit (.variable "x" ⟨0, 0⟩) 0 = .ok "x" 0 :=
  (render_deterministic (.variable "x" ⟨0, 0⟩) 0).1 "x" 0 rfl

/-- Claim C10: the traversal cursor is a position index, not a terminal
flag.  A Block exhausted by traversal signals end-of-sequence, but after
appending a new node the very next `next` call yields that node. -/
theorem exhausted_iterator_revived_by_append (b : Block) (n : AST)
    (h : b.position = b.nodes.length) :
    b.next = none
    ∧ (b.append n).next =
        some (n, ⟨b.name, b.nodes ++ [n], b.position + 1⟩) := by
  constructor
  · simp [Block.next, h]
  · have hlt : b.position < (b.nodes ++ [n]).length := by simp [h]
    simp only [Block.next, Block.append]
    rw [dif_pos hlt]
    simp [h, List.getElem_concat_length]

/-- Witness for C10 at a one-element exhausted block. -/
theorem exhausted_iterator_revived_by_append_witness :
    (⟨"entry", [.variable "x" ⟨0, 0⟩], 1⟩ : Block).next = none
    ∧ (Block.append ⟨"entry", [.variable "x" ⟨0, 0⟩], 1⟩ (.literalInt32 7 ⟨0, 0⟩)).next =
        some (.literalInt32 7 ⟨0, 0⟩,
          ⟨"entry", [.variable "x" ⟨0, 0⟩, .literalInt32 7 ⟨0, 0⟩], 2⟩) :=
  exhausted_iterator_revived_by_append ⟨"entry", [.variable "x" ⟨0, 0⟩], 1⟩
    (.literalInt32 7 ⟨0, 0⟩) rfl

end Astx

